import Mathlib

/-!
Verification of the ralph iteration engine (crates ralph-lib and ralph-cli).

Shallow embedding conventions:
* Rust `String` / `&str` values are modelled as `List Char` (one `Char` per
  byte-or-scalar; the strings manipulated by the engine are treated uniformly,
  and `len` is list length).
* `u32` iteration counters are modelled as `Nat` (no claim exercises wraparound).
* External capabilities (shell command execution, the copilot assistant, the
  copilot summarizer) are injected as function parameters, mirroring the
  subprocess calls in the source.
* Durable ledger storage is modelled as the byte sequence of the JSONL file.
-/

/-- Model of a Rust string: a sequence of characters. -/
abbrev Str := List Char

namespace Ralph

/-! ## Ledger data model (ralph-lib/src/ledger.rs) -/

/-- Status of a ledger event (`EventStatus` in ledger.rs, serde snake_case). -/
inductive EventStatus where
  | started
  | inProgress
  | done
  | failed
deriving DecidableEq, Repr

/-- A single event in the ledger (`LedgerEvent` in ledger.rs).  The
`chrono::DateTime<Utc>` timestamp is modelled as the string of its
serialized form (the ledger logic only carries it through). -/
structure LedgerEvent where
  timestamp : Str
  iteration : Nat
  requirement : Str
  status : EventStatus
  validation_passed : Option Bool := none
  message : Option Str := none
deriving DecidableEq, Repr

namespace LedgerEvent

/-- Constructor `LedgerEvent::new` (timestamp supplied by the caller in the
model, `Utc::now()` in the source). -/
def new (ts : Str) (iteration : Nat) (requirement : Str) (status : EventStatus) :
    LedgerEvent :=
  { timestamp := ts, iteration := iteration, requirement := requirement,
    status := status, validation_passed := none, message := none }

/-- Method `LedgerEvent::with_validation`. -/
def with_validation (e : LedgerEvent) (passed : Bool) : LedgerEvent :=
  { e with validation_passed := some passed }

/-- Method `LedgerEvent::with_message`. -/
def with_message (e : LedgerEvent) (m : Str) : LedgerEvent :=
  { e with message := some m }

/-- Modelled from the spec: `LedgerEvent::with_validation_output` is called by
ralph-cli (implement.rs) but its definition is not under src/.  Per spec §4.4
("append one Ledger Event carrying `validation_passed` and, on failure, a
bounded summary of the failing output") and the event data model (§3), which
has only the optional `message` field for such text, it stores the summary in
`message`. -/
def with_validation_output (e : LedgerEvent) (m : Str) : LedgerEvent :=
  { e with message := some m }

end LedgerEvent

/-- In-memory event sequence of a `Ledger` (field `events: Vec<LedgerEvent>`).
The derived queries below operate on this list exactly as the iterator
pipelines in ledger.rs do. -/
abbrev EventList := List LedgerEvent

namespace Ledger

/-- Method `Ledger::latest_iteration`:
`self.events.iter().map(|e| e.iteration).max().unwrap_or(0)`. -/
def latest_iteration (events : EventList) : Nat :=
  ((events.map LedgerEvent.iteration).max?).getD 0

/-- Method `Ledger::events_for_requirement`:
`self.events.iter().filter(|e| e.requirement == req_id).collect()`. -/
def events_for_requirement (events : EventList) (req_id : Str) : EventList :=
  events.filter (fun e => e.requirement = req_id)

/-- Method `Ledger::is_requirement_failed`: the last event for the requirement
has status `Failed`. -/
def is_requirement_failed (events : EventList) (req_id : Str) : Bool :=
  match (events_for_requirement events req_id).getLast? with
  | some e => e.status = EventStatus.failed
  | none => false

/-- Modelled from the spec: `Ledger::get_last_validation_failure` is called by
ralph-cli (implement.rs, feedback injection) but its definition is not under
src/.  Per spec §4.1/§4.5, the ledger decides that feedback must be injected
iff the last event for the requirement has status `Failed`, and then yields
"the corresponding stored failure message". -/
def get_last_validation_failure (events : EventList) (req_id : Str) : Option Str :=
  match (events_for_requirement events req_id).getLast? with
  | some e => if e.status = EventStatus.failed then e.message else none
  | none => none

end Ledger

/-! ## Validation pipeline (ralph-lib/src/validation.rs) -/

/-- Validation stages in order (`ValidationStage` in validation.rs). -/
inductive ValidationStage where
  | fmt
  | lint
  | typecheck
  | test
deriving DecidableEq, Repr

namespace ValidationStage

/-- Method `ValidationStage::all`: all stages in order. -/
def all : List ValidationStage := [.fmt, .lint, .typecheck, .test]

/-- Method `ValidationStage::short_circuit`: stages without test. -/
def short_circuit : List ValidationStage := [.fmt, .lint, .typecheck]

end ValidationStage

/-- Detection rules of a profile (`DetectRules` in validation.rs); carried in
the structure, evaluated against the filesystem outside this model. -/
structure DetectRules where
  any_files_exist : List Str := []
deriving DecidableEq, Repr

/-- Commands for each validation stage (`ProfileCommands` in validation.rs). -/
structure ProfileCommands where
  fmt : List Str := []
  lint : List Str := []
  typecheck : List Str := []
  test : List Str := []
deriving DecidableEq, Repr

/-- Semantics of the four `#[serde(default)]` attributes on `ProfileCommands`:
a stage key absent from the JSON object (`none`) deserializes to `Vec::new()`. -/
def ProfileCommands.ofFields (fmt lint typecheck test : Option (List Str)) :
    ProfileCommands :=
  { fmt := fmt.getD [], lint := lint.getD [],
    typecheck := typecheck.getD [], test := test.getD [] }

/-- Captured output of a completed subprocess (`std::process::Output`).
`code = none` models termination by signal; `ExitStatus::success()` holds
exactly when the exit code is 0. -/
structure CmdOutput where
  stdout : Str
  stderr : Str
  code : Option Int
deriving DecidableEq, Repr

/-- Method `ExitStatus::success` of the modelled output. -/
def CmdOutput.success (o : CmdOutput) : Bool := o.code = some 0

/-- Injected shell-execution capability (`run_shell_command` with its working
directory folded in): `Except.error` models an `io::Error` from spawning (its
description string), `Except.ok` a completed process. -/
abbrev ShellExec := Str → Except Str CmdOutput

/-- Whether a single command runs and exits with status 0 under `exec`. -/
def cmdOk (exec : ShellExec) (cmd : Str) : Bool :=
  match exec cmd with
  | .ok o => o.success
  | .error _ => false

/-- Result of running a validation stage (`ValidationResult` in validation.rs). -/
structure ValidationResult where
  stage : ValidationStage
  success : Bool
  output : Str
  exit_code : Option Int
deriving DecidableEq, Repr

/-- A validation profile configuration (`ValidationProfile` in validation.rs). -/
structure ValidationProfile where
  detect : DetectRules
  commands : ProfileCommands
deriving DecidableEq, Repr

namespace ValidationProfile

/-- Method `ValidationProfile::commands_for_stage`. -/
def commands_for_stage (p : ValidationProfile) : ValidationStage → List Str
  | .fmt => p.commands.fmt
  | .lint => p.commands.lint
  | .typecheck => p.commands.typecheck
  | .test => p.commands.test

/-- Command loop of `ValidationProfile::run_stage`: run each command in order;
on the first non-zero exit the combined stdout+stderr becomes the output and
the rest are skipped; a launch error becomes the output with no exit code;
if every command exits 0 the stage succeeds with empty output and code 0. -/
def run_stage_go (exec : ShellExec) (stage : ValidationStage) :
    List Str → ValidationResult
  | [] => ⟨stage, true, [], some 0⟩
  | cmd :: rest =>
    match exec cmd with
    | .ok output =>
        if output.success then run_stage_go exec stage rest
        else ⟨stage, false, output.stdout ++ output.stderr, output.code⟩
    | .error e => ⟨stage, false, e, none⟩

/-- Method `ValidationProfile::run_stage`. -/
def run_stage (p : ValidationProfile) (exec : ShellExec) (stage : ValidationStage) :
    ValidationResult :=
  run_stage_go exec stage (p.commands_for_stage stage)

/-- Stage loop of `ValidationProfile::run_all`: push each result, break after
the first failure. -/
def run_all_go (p : ValidationProfile) (exec : ShellExec) :
    List ValidationStage → List ValidationResult
  | [] => []
  | s :: rest =>
      if (p.run_stage exec s).success then
        p.run_stage exec s :: run_all_go p exec rest
      else [p.run_stage exec s]

/-- Method `ValidationProfile::run_all`: all stages when `include_tests`,
otherwise the short-circuit list, stopping at the first failing stage. -/
def run_all (p : ValidationProfile) (exec : ShellExec) (include_tests : Bool) :
    List ValidationResult :=
  run_all_go p exec
    (if include_tests then ValidationStage.all else ValidationStage.short_circuit)

end ValidationProfile

/-! ## JSONL serialization (the serde_json layer as exercised by ledger.rs) -/

/-- Decimal digit character for a value below 10. -/
def digitChar (n : Nat) : Char :=
  match n with
  | 0 => '0'
  | 1 => '1'
  | 2 => '2'
  | 3 => '3'
  | 4 => '4'
  | 5 => '5'
  | 6 => '6'
  | 7 => '7'
  | 8 => '8'
  | _ => '9'

/-- Lowercase hexadecimal digit character for a value below 16 (serde_json
emits lowercase `\u00xx` escapes). -/
def hexDigitChar (n : Nat) : Char :=
  match n with
  | 0 => '0'
  | 1 => '1'
  | 2 => '2'
  | 3 => '3'
  | 4 => '4'
  | 5 => '5'
  | 6 => '6'
  | 7 => '7'
  | 8 => '8'
  | 9 => '9'
  | 10 => 'a'
  | 11 => 'b'
  | 12 => 'c'
  | 13 => 'd'
  | 14 => 'e'
  | _ => 'f'

/-- Fuel-driven digit expansion; any fuel above the value itself is enough,
and the fuel keeps the recursion structural so it evaluates in the kernel. -/
def natCharsAux : Nat → Nat → Str
  | 0, _ => []
  | fuel + 1, n =>
      if n < 10 then [digitChar n]
      else natCharsAux fuel (n / 10) ++ [digitChar (n % 10)]

/-- Decimal representation of a natural number (the integer formatting
serde_json uses for the `iteration` field). -/
def natChars (n : Nat) : Str := natCharsAux (n + 1) n

/-- Escape one character as serde_json's string serializer does: quote and
backslash get backslash escapes, the named control characters their short
forms, the remaining control characters `\u00XX`, everything else is copied
verbatim. -/
def escapeChar (c : Char) : Str :=
  if c = '"' then ['\\', '"']
  else if c = '\\' then ['\\', '\\']
  else if c = '\x08' then ['\\', 'b']
  else if c = '\t' then ['\\', 't']
  else if c = '\n' then ['\\', 'n']
  else if c = '\x0c' then ['\\', 'f']
  else if c = '\r' then ['\\', 'r']
  else if c.toNat < 32 then
    ['\\', 'u', '0', '0', hexDigitChar (c.toNat / 16), hexDigitChar (c.toNat % 16)]
  else [c]

/-- Escaped body of a JSON string. -/
def escapeStr (s : Str) : Str := (s.map escapeChar).flatten

/-- Serde snake_case rendering of an `EventStatus` value. -/
def statusChars : EventStatus → Str
  | .started => "started".data
  | .inProgress => "in_progress".data
  | .done => "done".data
  | .failed => "failed".data

/-- Inverse lookup of `statusChars` (the derived deserializer for
`EventStatus`). -/
def statusOfChars (s : Str) : Option EventStatus :=
  if s = "started".data then some .started
  else if s = "in_progress".data then some .inProgress
  else if s = "done".data then some .done
  else if s = "failed".data then some .failed
  else none

/-- Serialization of a `LedgerEvent` as `serde_json::to_string` produces it:
fields in declaration order with camelCase names, the two optional fields
omitted entirely when `none` (`skip_serializing_if = "Option::is_none"`). -/
def encodeEvent (e : LedgerEvent) : Str :=
  "\x7b\"timestamp\":\"".data ++ escapeStr e.timestamp ++ "\"".data
    ++ ",\"iteration\":".data ++ natChars e.iteration
    ++ ",\"requirement\":\"".data ++ escapeStr e.requirement ++ "\"".data
    ++ ",\"status\":\"".data ++ escapeStr (statusChars e.status) ++ "\"".data
    ++ (match e.validation_passed with
        | none => []
        | some b => ",\"validationPassed\":".data ++
            (if b then "true".data else "false".data))
    ++ (match e.message with
        | none => []
        | some m => ",\"message\":\"".data ++ escapeStr m ++ "\"".data)
    ++ ['\x7d']

/-- Consume the exact literal `lit` from the front of `input`. -/
def expectLit (lit input : Str) : Option Str :=
  match lit, input with
  | [], r => some r
  | _ :: _, [] => none
  | l :: ls, c :: cs => if l = c then expectLit ls cs else none

/-- Numeric value of a hexadecimal digit character. -/
def hexVal (c : Char) : Option Nat :=
  if '0' ≤ c ∧ c ≤ '9' then some (c.toNat - '0'.toNat)
  else if 'a' ≤ c ∧ c ≤ 'f' then some (c.toNat - 'a'.toNat + 10)
  else if 'A' ≤ c ∧ c ≤ 'F' then some (c.toNat - 'A'.toNat + 10)
  else none

/-- Prepend a decoded character to a string-parser result. -/
def consRes (c : Char) : Option (Str × Str) → Option (Str × Str) :=
  Option.map (fun p => (c :: p.1, p.2))

/-- Decoded character of a single-character JSON escape sequence. -/
def unescOne (e : Char) : Option Char :=
  if e = '"' then some '"'
  else if e = '\\' then some '\\'
  else if e = '/' then some '/'
  else if e = 'b' then some '\x08'
  else if e = 't' then some '\t'
  else if e = 'n' then some '\n'
  else if e = 'f' then some '\x0c'
  else if e = 'r' then some '\r'
  else none

/-- Parser for the body of a JSON string (after the opening quote), reading
the escapes serde_json's deserializer accepts: returns the decoded content
and the input remaining after the closing quote. -/
def parseJsonString : Str → Option (Str × Str)
  | [] => none
  | c :: rest =>
    if c = '"' then some ([], rest)
    else if c = '\\' then
      match rest with
      | 'u' :: h1 :: h2 :: h3 :: h4 :: rest3 =>
          match hexVal h1, hexVal h2, hexVal h3, hexVal h4 with
          | some a, some b, some c2, some d =>
              consRes (Char.ofNat (((a * 16 + b) * 16 + c2) * 16 + d))
                (parseJsonString rest3)
          | _, _, _, _ => none
      | e :: rest2 => (unescOne e).bind fun d => consRes d (parseJsonString rest2)
      | [] => none
    else consRes c (parseJsonString rest)

/-- Digit test of the number parser. -/
def isDigitC (c : Char) : Bool := 48 ≤ c.toNat && c.toNat ≤ 57

/-- Accumulating decimal parser: consume leading digits. -/
def parseNatAux (s : Str) (acc : Nat) : Nat × Str :=
  match s with
  | [] => (acc, [])
  | c :: rest =>
      if isDigitC c then parseNatAux rest (10 * acc + (c.toNat - 48))
      else (acc, c :: rest)

/-- Parser for a non-negative JSON integer: at least one digit. -/
def parseNat (s : Str) : Option (Nat × Str) :=
  match s with
  | [] => none
  | c :: rest =>
      if isDigitC c then some (parseNatAux rest (c.toNat - 48)) else none

/-- Optional `validationPassed` field: present iff its key literal follows
(the serializer omits the field entirely when `None`). -/
def parseOptVp (r7 : Str) : Option (Option Bool × Str) :=
  match expectLit ",\"validationPassed\":".data r7 with
  | some r =>
    match expectLit "true".data r with
    | some rt => some (some true, rt)
    | none =>
      match expectLit "false".data r with
      | some rf => some (some false, rf)
      | none => none
  | none => some ((none : Option Bool), r7)

/-- Optional `message` field: present iff its key literal follows. -/
def parseOptMsg (r8 : Str) : Option (Option Str × Str) :=
  match expectLit ",\"message\":\"".data r8 with
  | some r => (parseJsonString r).map (fun p => (some p.1, p.2))
  | none => some ((none : Option Str), r8)

/-- Deserialization of one ledger line, modelling
`serde_json::from_str::<LedgerEvent>` (external library code; ledger.rs only
composes it per line) restricted to the canonical field order the serializer
emits. -/
def decodeEvent (line : Str) : Option LedgerEvent := do
  let r0 ← expectLit "\x7b\"timestamp\":\"".data line
  let (ts, r1) ← parseJsonString r0
  let r2 ← expectLit ",\"iteration\":".data r1
  let (it, r3) ← parseNat r2
  let r4 ← expectLit ",\"requirement\":\"".data r3
  let (req, r5) ← parseJsonString r4
  let r6 ← expectLit ",\"status\":\"".data r5
  let (st, r7) ← parseJsonString r6
  let status ← statusOfChars st
  let (vp, r8) ← parseOptVp r7
  let (msg, r9) ← parseOptMsg r8
  let r10 ← expectLit ['\x7d'] r9
  if r10 = [] then
    some { timestamp := ts, iteration := it, requirement := req,
           status := status, validation_passed := vp, message := msg }
  else none

/-! ## Durable ledger storage (ledger.rs `Ledger` with a file path) -/

/-- Model of the `Ledger` struct: `hasPath` is `path.is_some()`, `file` the
content of the JSONL file at the path, `events` the in-memory sequence. -/
structure Ledger where
  hasPath : Bool
  file : Str
  events : EventList
deriving DecidableEq, Repr

namespace Ledger

/-- Method `Ledger::create` at a fresh path: empty file, no events. -/
def create : Ledger := { hasPath := true, file := [], events := [] }

/-- Method `Ledger::new`: in-memory only, no path. -/
def new : Ledger := { hasPath := false, file := [], events := [] }

/-- Method `Ledger::append`.  The durable write (open for append, `writeln!`,
`flush`) happens first; its success is modelled by `writeOk`.  Only after the
write succeeds is the event pushed onto the in-memory list, so a failed write
(`?` propagation) leaves `events` untouched.  The claims do not constrain the
file content of a failed write; the model leaves it unchanged for
definiteness. -/
def append (l : Ledger) (writeOk : Bool) (e : LedgerEvent) :
    Except Unit Unit × Ledger :=
  if l.hasPath then
    if writeOk then
      (.ok (), { l with file := l.file ++ encodeEvent e ++ ['\n'],
                        events := l.events ++ [e] })
    else (.error (), l)
  else (.ok (), { l with events := l.events ++ [e] })

/-- Fold of successful appends. -/
def appendAll (l : Ledger) (es : List LedgerEvent) : Ledger :=
  es.foldl (fun acc e => (acc.append true e).2) l

/-- Drop a trailing carriage return (`BufRead::lines` strips `\r\n`). -/
def stripCr (l : Str) : Str := if l.getLast? = some '\r' then l.dropLast else l

/-- Split on newline characters, keeping empty segments. -/
def splitNl (s : Str) : List Str :=
  match s with
  | [] => [[]]
  | c :: rest =>
    if c = '\n' then [] :: splitNl rest
    else
      match splitNl rest with
      | [] => [[c]]
      | l :: ls => (c :: l) :: ls

/-- Model of `BufRead::lines`: newline-separated segments, no trailing empty
segment for a newline-terminated file, trailing `\r` stripped per line. -/
def readLines (file : Str) : List Str :=
  if file = [] then []
  else (if file.getLast? = some '\n' then (splitNl file).dropLast
        else splitNl file).map stripCr

/-- Line loop of `Ledger::from_file`: skip lines whose trim is empty, fail on
the first unparsable line, keep events in file order. -/
def parseLines : List Str → Except Unit EventList
  | [] => .ok []
  | l :: rest =>
      if l.all Char.isWhitespace then parseLines rest
      else
        match decodeEvent l with
        | some e => (parseLines rest).map (fun es => e :: es)
        | none => .error ()

/-- Method `Ledger::from_file` for an existing file with the given content. -/
def from_file (file : Str) : Except Unit Ledger :=
  (parseLines (readLines file)).map
    (fun es => { hasPath := true, file := file, events := es })

/-- File content produced by appending each event in order (one JSON line per
event). -/
def encodeFile (es : EventList) : Str :=
  (es.map (fun e => encodeEvent e ++ ['\n'])).flatten

end Ledger

/-! ## PRD data model (ralph-lib/src/prd.rs) -/

/-- Status of a requirement (`RequirementStatus` in prd.rs). -/
inductive RequirementStatus where
  | todo
  | inProgress
  | done
  | blocked
deriving DecidableEq, Repr

/-- A single requirement in a PRD (`Requirement` in prd.rs). -/
structure Requirement where
  id : Str
  title : Str
  status : RequirementStatus
  acceptance_criteria : List Str
deriving DecidableEq, Repr

/-- Product Requirements Document (`Prd` in prd.rs); only fields the loop
controller reads are modelled. -/
structure Prd where
  schema_version : Str
  slug : Str
  title : Str
  active_run_id : Str
  validation_profiles : List Str
  requirements : List Requirement
deriving DecidableEq, Repr

/-- Inner loop of `Prd::update_requirement_status`: `iter_mut().find(..)`
mutates the first requirement whose id matches. -/
def updateFirstReq (req_id : Str) (status : RequirementStatus) :
    List Requirement → List Requirement
  | [] => []
  | r :: rest =>
      if r.id = req_id then { r with status := status } :: rest
      else r :: updateFirstReq req_id status rest

/-- Method `Prd::update_requirement_status` (the model returns the updated
document; the source mutates in place and reports whether the id matched). -/
def Prd.update_requirement_status (prd : Prd) (req_id : Str)
    (status : RequirementStatus) : Prd :=
  { prd with requirements := updateFirstReq req_id status prd.requirements }

/-- Container of validation profiles (`ValidationConfig` in validation.rs);
the `HashMap` is modelled as an association list and `get` as lookup. -/
structure ValidationConfig where
  schema_version : Str
  profiles : List (Str × ValidationProfile)
deriving DecidableEq, Repr

/-- Method `ValidationConfig::get`. -/
def ValidationConfig.get (vc : ValidationConfig) (name : Str) :
    Option ValidationProfile :=
  (vc.profiles.find? (fun p => p.1 = name)).map (·.2)

/-! ## Implement command (ralph-cli/src/commands/implement.rs) -/

/-- Model of `str::lines` (same segment semantics as `BufRead::lines`):
newline-separated segments, no trailing empty segment for a
newline-terminated string, trailing `\r` stripped per line. -/
def strLines (s : Str) : List Str := Ledger.readLines s

/-- Join a list of strings with a separator (`Vec::join`). -/
def joinSep (sep : Str) : List Str → Str
  | [] => []
  | x :: rest => x ++ (rest.map (fun r => sep ++ r)).flatten

/-- Constant `MAX_VALIDATION_OUTPUT` in `generate_prompt`. -/
def MAX_VALIDATION_OUTPUT : Nat := 2000

/-- Function `smart_truncate_validation_output`: keep the first
`min 15 (n/2)` and last `min 10 (n/2)` lines with an omission marker, then
hard-truncate with a trailing marker if the result still exceeds
`max_chars`. -/
def smart_truncate_validation_output (output : Str) (max_chars : Nat) : Str :=
  if output.length ≤ max_chars then output
  else
    let lines := strLines output
    let total_lines := lines.length
    let first_n := min 15 (total_lines / 2)
    let last_m := min 10 (total_lines / 2)
    let omitted := total_lines - (first_n + last_m)
    let result :=
      ((lines.take first_n).map (fun l => l ++ ['\n'])).flatten
        ++ (if 0 < omitted then
              "\n... (".data ++ natChars omitted ++ " lines omitted) ...\n\n".data
            else [])
        ++ ((lines.drop (total_lines - last_m)).map (fun l => l ++ ['\n'])).flatten
    if max_chars < result.length then
      result.take max_chars ++ "...\n(truncated to fit size limit)".data
    else result

/-- Injected summarizer capability: the `copilot` CLI call inside
`summarize_validation_output`.  `some s` is the trimmed stdout of a
successful run; `none` models both a launch error and a non-success exit
(the two fallback arms of the source). -/
abbrev Summarizer := Str → Option Str

/-- Function `summarize_validation_output` (the `verbose` flag only controls
console printing and is not modelled): empty output stays empty, a
successful summarizer run yields its summary, otherwise fall back to
`smart_truncate_validation_output` with bound 2000. -/
def summarize_validation_output (summ : Summarizer) (validation_output : Str) :
    Str :=
  if validation_output = [] then []
  else
    match summ validation_output with
    | some s => s
    | none => smart_truncate_validation_output validation_output 2000

/-- Feedback block of `generate_prompt` (inline in the source): output longer
than `MAX_VALIDATION_OUTPUT` is cut to its first 2000 bytes plus a marker
with the omitted byte count. -/
def injected_feedback (validation_output : Str) : Str :=
  if MAX_VALIDATION_OUTPUT < validation_output.length then
    validation_output.take MAX_VALIDATION_OUTPUT
      ++ "\n\n... (truncated ".data
      ++ natChars (validation_output.length - MAX_VALIDATION_OUTPUT)
      ++ " chars) ...\n".data
  else validation_output

/-- Function `generate_prompt`. -/
def generate_prompt (prd : Prd) (req : Requirement) (ledger : EventList)
    (iteration : Nat) (run_full_tests : Bool) : Str :=
  let base :=
    "Implement requirement ".data ++ req.id
      ++ " for feature '".data ++ prd.slug
      ++ "' (iteration ".data ++ natChars iteration
      ++ ").\n\nTitle: ".data ++ req.title
      ++ "\n\nAcceptance Criteria:\n".data
      ++ joinSep ['\n'] (req.acceptance_criteria.map (fun ac => "- ".data ++ ac))
      ++ "\n\nValidation: fmt -> lint -> typecheck".data
      ++ (if run_full_tests then " -> test".data else [])
      ++ "\n\nUpdate PRD status only after validation passes.".data
  if 1 < iteration then
    match Ledger.get_last_validation_failure ledger req.id with
    | some validation_output =>
        base ++ "\n\n⚠️  PREVIOUS ITERATION FAILED VALIDATION:\n\n".data
          ++ injected_feedback validation_output
          ++ "\n\n🚨 YOU MUST FIX THESE ERRORS BEFORE FINISHING.\nRead the error output above and fix the root cause.\nDO NOT finish your work until validation passes.".data
    | none => base
  else base

/-- Debug rendering of a stage (`format!("Stage: {:?}", r.stage)`). -/
def stageDebug : ValidationStage → Str
  | .fmt => "Fmt".data
  | .lint => "Lint".data
  | .typecheck => "Typecheck".data
  | .test => "Test".data

/-- Requirement-selection expression of `run_single_iteration`:
`prd.requirements.iter().find(|r| r.status == Todo || r.status == InProgress)`. -/
def select_next (reqs : List Requirement) : Option Requirement :=
  reqs.find? (fun r =>
    r.status == RequirementStatus.todo || r.status == RequirementStatus.inProgress)

/-- Injected external capabilities of the implement command: the copilot
implementer invocation (prompt to success flag, working directory folded in),
the validation shell, and the summarizer CLI. -/
structure Caps where
  copilot : Str → Bool
  exec : ShellExec
  summarize : Summarizer

/-- Observable side effects of one iteration, emitted in source order: PRD
write-through saves, ledger appends, the copilot invocation with its prompt,
and the validation run with its full-sweep flag. -/
inductive Action where
  | savedPrd (prd : Prd)
  | appended (e : LedgerEvent)
  | invokedCopilot (prompt : Str)
  | ranValidation (full : Bool)
deriving DecidableEq, Repr

/-- Function `run_single_iteration` (non-I/O model).  Timestamps (from
`Utc::now()`) are modelled as the empty string; PRD saves and ledger appends
are assumed to succeed (an I/O failure aborts the whole run in the source).
Returns the updated PRD, the updated in-memory event list, the all-done flag,
and the trace of observable actions in execution order. -/
def run_single_iteration (caps : Caps) (dry_run : Bool) (prd : Prd)
    (ledger : EventList) (validation_config : Option ValidationConfig) :
    Prd × EventList × Bool × List Action :=
  match select_next prd.requirements with
  | none => (prd, ledger, true, [])
  | some req =>
    let iteration := Ledger.latest_iteration ledger + 1
    let run_full_tests := iteration % 5 == 0
    if dry_run then (prd, ledger, false, [])
    else
      let prd1 := prd.update_requirement_status req.id RequirementStatus.inProgress
      let started := LedgerEvent.new [] iteration req.id EventStatus.started
      let ledger1 := ledger ++ [started]
      let prompt := generate_prompt prd1 req ledger1 iteration run_full_tests
      let copilot_success := caps.copilot prompt
      let validation : Bool × Option Str × List Action :=
        match validation_config with
        | some vc =>
          match prd1.validation_profiles.head?.bind (fun p => vc.get p) with
          | some profile =>
            let results := profile.run_all caps.exec run_full_tests
            let all_passed := results.all (fun r => r.success)
            let failed_output := (results.find? (fun r => ! r.success)).map
              (fun r => "Stage: ".data ++ stageDebug r.stage ++ "\n\n".data ++ r.output)
            (all_passed, failed_output, [Action.ranValidation run_full_tests])
          | none => (true, none, [])
        | none => (true, none, [])
      let validation_passed := validation.1
      let validation_output := validation.2.1
      let statuses :=
        if copilot_success && validation_passed then
          (RequirementStatus.done, EventStatus.done)
        else (RequirementStatus.inProgress, EventStatus.failed)
      let prd2 := prd1.update_requirement_status req.id statuses.1
      let event0 := (LedgerEvent.new [] iteration req.id statuses.2).with_validation
        validation_passed
      let event :=
        match validation_output with
        | some output =>
            event0.with_validation_output
              (summarize_validation_output caps.summarize output)
        | none => event0
      (prd2, ledger1 ++ [event], false,
        Action.savedPrd prd1 :: Action.appended started ::
          Action.invokedCopilot prompt :: validation.2.2
          ++ [Action.savedPrd prd2, Action.appended event])

/-- Termination reason of the loop in `run`. -/
inductive TermReason where
  | allComplete
  | maxIterationsReached
deriving DecidableEq, Repr

/-- Loop of `run` (loop mode): `fuel` is the number of iterations the
`iteration_count > max_iterations` guard still allows; reaching 0 stops with
the max-iterations message, an all-done single iteration stops with the
all-complete message. -/
def runLoop (caps : Caps) (dry_run : Bool) (vc : Option ValidationConfig) :
    Nat → Prd → EventList → Prd × EventList × TermReason
  | 0, prd, ledger => (prd, ledger, TermReason.maxIterationsReached)
  | fuel + 1, prd, ledger =>
      let step := run_single_iteration caps dry_run prd ledger vc
      if step.2.2.1 then (step.1, step.2.1, TermReason.allComplete)
      else runLoop caps dry_run vc fuel step.1 step.2.1

/-- Function `run` in loop mode (`loop_enabled = true`), starting from a
loaded PRD and ledger. -/
def run (caps : Caps) (dry_run : Bool) (vc : Option ValidationConfig)
    (max_iterations : Nat) (prd : Prd) (ledger : EventList) :
    Prd × EventList × TermReason :=
  runLoop caps dry_run vc max_iterations prd ledger

/-! ### Concrete fixtures used by witness theorems -/

/-- Fixture: a plain started event. -/
def wEvent1 : LedgerEvent :=
  LedgerEvent.new "2026-01-01T00:00:00Z".data 1 "REQ-01".data .started

/-- Fixture: a done event carrying a validation flag and a message with
characters that need escaping. -/
def wEvent2 : LedgerEvent :=
  ((LedgerEvent.new "2026-01-01T00:00:01Z".data 2 "REQ-02".data .done).with_validation
      true).with_message ("line \"one\"\nline two".data)

/-- Fixture: a shell executor where command "a" exits 1 with stdout "o" and
stderr "e", command "x" fails to launch with description "nf", and every
other command exits 0. -/
def wExec : ShellExec := fun c =>
  if c = ['a'] then .ok ⟨['o'], ['e'], some 1⟩
  else if c = ['x'] then .error ['n', 'f']
  else .ok ⟨[], [], some 0⟩

/-- Fixture: profile whose lint stage starts with the failing command "a". -/
def wProfile : ValidationProfile :=
  { detect := {},
    commands := { fmt := [['f']], lint := [['a'], ['b']],
                  typecheck := [['t']], test := [['s']] } }

/-- Fixture: profile with no commands at all. -/
def wEmptyProfile : ValidationProfile := { detect := {}, commands := {} }

/-- Fixture: a todo requirement R1. -/
def wReqTodo1 : Requirement :=
  { id := "R1".data, title := "first".data, status := RequirementStatus.todo,
    acceptance_criteria := ["works".data] }

/-- Fixture: a done requirement R1. -/
def wReqDone1 : Requirement := { wReqTodo1 with status := RequirementStatus.done }

/-- Fixture: a done requirement R2. -/
def wReqDone2 : Requirement :=
  { id := "R2".data, title := "second".data, status := RequirementStatus.done,
    acceptance_criteria := ["also works".data] }

/-- Fixture: a PRD with the single todo requirement R1 and profile name "p". -/
def wPrd : Prd :=
  { schema_version := "1.0".data, slug := "feat".data, title := "Feat".data,
    active_run_id := "run-1".data, validation_profiles := ["p".data],
    requirements := [wReqTodo1] }

/-- Fixture: a validation config whose profile "p" has an empty fmt stage and
a lint stage that runs the failing command "a". -/
def wVc : ValidationConfig :=
  { schema_version := "1.0".data,
    profiles := [("p".data,
      { detect := {},
        commands := { lint := [['a']] } })] }

/-- Fixture: capabilities where the copilot implementer always succeeds, the
shell is `wExec` (command "a" fails), and the summarizer returns "S". -/
def wCaps : Caps :=
  { copilot := fun _ => true, exec := wExec, summarize := fun _ => some ['S'] }

/-- Fixture: a two-line failure output longer than the 2000-byte bound whose
last line is "Z". -/
def wLongOutput : Str := List.replicate 2000 'a' ++ '\n' :: ['Z']

/-- Fixture: a single long line, for the line-window edge case. -/
def wSingleLine : Str := List.replicate 2001 'a'

/-- Fixture: a ledger whose last event for R1 failed with `wLongOutput` as
its stored message. -/
def wFailedLedger : EventList :=
  [((LedgerEvent.new [] 1 "R1".data EventStatus.failed).with_validation
      false).with_message wLongOutput]

end Ralph

section C1Theorems

open Ralph Ralph.Ledger

/-- C1: `latest_iteration` returns the maximum iteration value across all
events, and 0 when the ledger contains no events. -/
theorem latest_iteration_is_max (events : EventList) :
    (events = [] → latest_iteration events = 0) ∧
    (∀ e ∈ events, e.iteration ≤ latest_iteration events) ∧
    (events ≠ [] → ∃ e ∈ events, latest_iteration events = e.iteration) := by
  refine ⟨?_, ?_, ?_⟩
  · rintro rfl; rfl
  · intro e he
    have hmem : e.iteration ∈ events.map LedgerEvent.iteration :=
      List.mem_map_of_mem _ he
    rcases hx : (events.map LedgerEvent.iteration).max? with _ | m
    · rw [List.max?_eq_none_iff.mp hx] at hmem
      simp at hmem
    · rcases List.max?_eq_some_iff'.mp hx with ⟨_, hle⟩
      simpa [latest_iteration, hx] using hle _ hmem
  · intro hne
    have hmapne : events.map LedgerEvent.iteration ≠ [] := by
      simpa using hne
    rcases hx : (events.map LedgerEvent.iteration).max? with _ | m
    · exact absurd (List.max?_eq_none_iff.mp hx) hmapne
    · rcases List.max?_eq_some_iff'.mp hx with ⟨hmem, _⟩
      rcases List.mem_map.mp hmem with ⟨e, he, hei⟩
      exact ⟨e, he, by simp [latest_iteration, hx, hei]⟩

/-- C1 witness: both branches at concrete inputs. -/
theorem latest_iteration_is_max_witness :
    latest_iteration [] = 0 ∧
    latest_iteration
        [LedgerEvent.new [] 1 ['R'] .started,
         LedgerEvent.new [] 5 ['R'] .done,
         LedgerEvent.new [] 3 ['R'] .failed] = 5 := by
  constructor
  · exact (latest_iteration_is_max []).1 rfl
  · have h := (latest_iteration_is_max
        [LedgerEvent.new [] 1 ['R'] .started,
         LedgerEvent.new [] 5 ['R'] .done,
         LedgerEvent.new [] 3 ['R'] .failed]).2.1
    decide

end C1Theorems

section SerializationLemmas

open Ralph

theorem natCharsAux_stable (n : Nat) : ∀ f1 f2, n < f1 → n < f2 →
    natCharsAux f1 n = natCharsAux f2 n := by
  induction n using Nat.strong_induction_on with
  | _ n ih =>
    intro f1 f2 h1 h2
    match f1, f2 with
    | a + 1, b + 1 =>
      simp only [natCharsAux]
      by_cases h10 : n < 10
      · simp [h10]
      · rw [if_neg h10, if_neg h10,
          ih (n / 10) (Nat.div_lt_self (by omega) (by omega)) a (n / 10 + 1)
            (by omega) (by omega),
          ih (n / 10) (Nat.div_lt_self (by omega) (by omega)) b (n / 10 + 1)
            (by omega) (by omega)]

theorem natChars_eq (n : Nat) :
    natChars n =
      if n < 10 then [digitChar n] else natChars (n / 10) ++ [digitChar (n % 10)] := by
  rw [natChars, natCharsAux]
  by_cases h10 : n < 10
  · simp [h10]
  · rw [if_neg h10, if_neg h10, natChars,
      natCharsAux_stable (n / 10) n (n / 10 + 1) (by omega) (by omega)]

theorem digitChar_isDigit (n : Nat) : isDigitC (digitChar n) = true := by
  unfold digitChar
  split <;> decide

theorem digitChar_toNat (n : Nat) (h : n < 10) : (digitChar n).toNat = 48 + n := by
  interval_cases n <;> decide

theorem natChars_ne_nil (n : Nat) : natChars n ≠ [] := by
  rw [natChars_eq]
  by_cases h10 : n < 10
  · simp [h10]
  · simp [h10]

theorem natChars_all_digits (n : Nat) : ∀ c ∈ natChars n, isDigitC c = true := by
  induction n using Nat.strong_induction_on with
  | _ n ih =>
    intro c hc
    rw [natChars_eq] at hc
    by_cases h10 : n < 10
    · rw [if_pos h10] at hc
      simp only [List.mem_singleton] at hc
      subst hc
      exact digitChar_isDigit n
    · rw [if_neg h10, List.mem_append] at hc
      rcases hc with hc | hc
      · exact ih (n / 10) (Nat.div_lt_self (by omega) (by omega)) c hc
      · simp only [List.mem_singleton] at hc
        subst hc
        exact digitChar_isDigit (n % 10)

theorem parseNatAux_nondigit (acc : Nat) :
    ∀ rest : Str, (∀ c, rest.head? = some c → isDigitC c = false) →
      parseNatAux rest acc = (acc, rest)
  | [], _ => rfl
  | c :: rest, h => by
      have hc : isDigitC c = false := h c rfl
      simp [parseNatAux, hc]

theorem parseNatAux_natChars (n : Nat) : ∀ acc (rest : Str),
    parseNatAux (natChars n ++ rest) acc =
      parseNatAux rest (acc * 10 ^ (natChars n).length + n) := by
  induction n using Nat.strong_induction_on with
  | _ n ih =>
    intro acc rest
    by_cases h10 : n < 10
    · rw [natChars_eq, if_pos h10]
      simp only [List.singleton_append, List.length_cons, List.length_nil,
        parseNatAux, digitChar_isDigit, if_pos, List.append_eq, List.nil_append]
      rw [digitChar_toNat n h10]
      have harg : 10 * acc + (48 + n - 48) = acc * 10 ^ (0 + 1) + n := by
        simp [pow_succ]
        omega
      rw [harg]
    · rw [natChars_eq, if_neg h10]
      rw [List.append_assoc, List.singleton_append,
        ih (n / 10) (Nat.div_lt_self (by omega) (by omega)) acc
          (digitChar (n % 10) :: rest)]
      simp only [parseNatAux, digitChar_isDigit, if_pos]
      rw [digitChar_toNat (n % 10) (by omega)]
      have harg : 10 * (acc * 10 ^ (natChars (n / 10)).length + n / 10) +
          (48 + n % 10 - 48) =
          acc * 10 ^ (natChars (n / 10) ++ [digitChar (n % 10)]).length + n := by
        simp only [List.length_append, List.length_cons, List.length_nil]
        rw [pow_succ]
        have hpow : acc * (10 ^ (natChars (n / 10)).length * 10) =
            acc * 10 ^ (natChars (n / 10)).length * 10 := by ring
        rw [hpow]
        generalize acc * 10 ^ (natChars (n / 10)).length = q
        omega
      rw [harg]

theorem parseNat_natChars (n : Nat) (rest : Str)
    (h : ∀ c, rest.head? = some c → isDigitC c = false) :
    parseNat (natChars n ++ rest) = some (n, rest) := by
  rcases hn : natChars n with _ | ⟨c, cs⟩
  · exact absurd hn (natChars_ne_nil n)
  · have hdig : isDigitC c = true := by
      apply natChars_all_digits n
      rw [hn]
      exact List.mem_cons_self _ _
    have key : parseNatAux ((c :: cs) ++ rest) 0 = (n, rest) := by
      rw [← hn, parseNatAux_natChars n 0 rest, parseNatAux_nondigit _ rest h]
      simp
    simp only [List.cons_append, parseNatAux, hdig, if_pos, Nat.mul_zero,
      Nat.zero_add, List.append_eq] at key
    simp only [List.cons_append, parseNat, hdig, if_pos, List.append_eq]
    rw [key]

theorem hexDigitChar_val (n : Nat) (h : n < 16) : hexVal (hexDigitChar n) = some n := by
  interval_cases n <;> decide

theorem escapeStr_nil : escapeStr [] = [] := rfl

theorem escapeStr_cons (c : Char) (s : Str) :
    escapeStr (c :: s) = escapeChar c ++ escapeStr s := rfl

theorem pjs_quote (t : Str) : parseJsonString ('"' :: t) = some ([], t) := by
  rw [parseJsonString.eq_def]
  simp

theorem pjs_other (c : Char) (t : Str) (h1 : c ≠ '"') (h2 : c ≠ '\\') :
    parseJsonString (c :: t) = consRes c (parseJsonString t) := by
  rw [parseJsonString.eq_def]
  simp [h1, h2]

theorem pjs_hex (d1 d2 : Char) (t : Str) (a b : Nat)
    (h1 : hexVal d1 = some a) (h2 : hexVal d2 = some b) :
    parseJsonString ('\\' :: 'u' :: '0' :: '0' :: d1 :: d2 :: t) =
      consRes (Char.ofNat (a * 16 + b)) (parseJsonString t) := by
  have step : parseJsonString ('\\' :: 'u' :: '0' :: '0' :: d1 :: d2 :: t) =
      match hexVal '0', hexVal '0', hexVal d1, hexVal d2 with
      | some a2, some b2, some c2, some d =>
          consRes (Char.ofNat (((a2 * 16 + b2) * 16 + c2) * 16 + d))
            (parseJsonString t)
      | _, _, _, _ => none := rfl
  rw [step, show hexVal '0' = some 0 from rfl, h1, h2]
  norm_num

theorem parse_escape : ∀ (s rest : Str),
    parseJsonString (escapeStr s ++ '"' :: rest) = some (s, rest)
  | [], rest => by
      rw [escapeStr_nil, List.nil_append, pjs_quote]
  | c :: s, rest => by
      rw [escapeStr_cons, List.append_assoc]
      by_cases hq : c = '"'
      · subst hq
        rw [show escapeChar '"' = ['\\', '"'] from rfl]
        simp only [List.cons_append, List.nil_append]
        rw [show ∀ t, parseJsonString ('\\' :: '"' :: t) =
              consRes '"' (parseJsonString t) from fun _ => rfl,
          parse_escape s rest]
        rfl
      · by_cases hb : c = '\\'
        · subst hb
          rw [show escapeChar '\\' = ['\\', '\\'] from rfl]
          simp only [List.cons_append, List.nil_append]
          rw [show ∀ t, parseJsonString ('\\' :: '\\' :: t) =
                consRes '\\' (parseJsonString t) from fun _ => rfl,
            parse_escape s rest]
          rfl
        · by_cases h8 : c = '\x08'
          · subst h8
            rw [show escapeChar '\x08' = ['\\', 'b'] from rfl]
            simp only [List.cons_append, List.nil_append]
            rw [show ∀ t, parseJsonString ('\\' :: 'b' :: t) =
                  consRes '\x08' (parseJsonString t) from fun _ => rfl,
              parse_escape s rest]
            rfl
          · by_cases ht : c = '\t'
            · subst ht
              rw [show escapeChar '\t' = ['\\', 't'] from rfl]
              simp only [List.cons_append, List.nil_append]
              rw [show ∀ t, parseJsonString ('\\' :: 't' :: t) =
                    consRes '\t' (parseJsonString t) from fun _ => rfl,
                parse_escape s rest]
              rfl
            · by_cases hn : c = '\n'
              · subst hn
                rw [show escapeChar '\n' = ['\\', 'n'] from rfl]
                simp only [List.cons_append, List.nil_append]
                rw [show ∀ t, parseJsonString ('\\' :: 'n' :: t) =
                      consRes '\n' (parseJsonString t) from fun _ => rfl,
                  parse_escape s rest]
                rfl
              · by_cases hc : c = '\x0c'
                · subst hc
                  rw [show escapeChar '\x0c' = ['\\', 'f'] from rfl]
                  simp only [List.cons_append, List.nil_append]
                  rw [show ∀ t, parseJsonString ('\\' :: 'f' :: t) =
                        consRes '\x0c' (parseJsonString t) from fun _ => rfl,
                    parse_escape s rest]
                  rfl
                · by_cases hr : c = '\r'
                  · subst hr
                    rw [show escapeChar '\r' = ['\\', 'r'] from rfl]
                    simp only [List.cons_append, List.nil_append]
                    rw [show ∀ t, parseJsonString ('\\' :: 'r' :: t) =
                          consRes '\r' (parseJsonString t) from fun _ => rfl,
                      parse_escape s rest]
                    rfl
                  · by_cases hctl : c.toNat < 32
                    · rw [show escapeChar c =
                          ['\\', 'u', '0', '0', hexDigitChar (c.toNat / 16),
                            hexDigitChar (c.toNat % 16)] from by
                        unfold escapeChar
                        rw [if_neg hq, if_neg hb, if_neg h8, if_neg ht,
                          if_neg hn, if_neg hc, if_neg hr, if_pos hctl]]
                      simp only [List.cons_append, List.nil_append]
                      rw [pjs_hex _ _ _ (c.toNat / 16) (c.toNat % 16)
                          (hexDigitChar_val _ (by omega))
                          (hexDigitChar_val _ (by omega)),
                        show c.toNat / 16 * 16 + c.toNat % 16 = c.toNat by omega,
                        Char.ofNat_toNat, parse_escape s rest]
                      rfl
                    · rw [show escapeChar c = [c] from by
                          unfold escapeChar
                          rw [if_neg hq, if_neg hb, if_neg h8, if_neg ht,
                            if_neg hn, if_neg hc, if_neg hr, if_neg hctl]]
                      simp only [List.cons_append, List.nil_append]
                      rw [pjs_other c _ hq hb, parse_escape s rest]
                      rfl

theorem expectLit_append : ∀ (lit r : Str), expectLit lit (lit ++ r) = some r
  | [], r => rfl
  | l :: ls, r => by
      simp only [List.cons_append, expectLit, if_pos]
      exact expectLit_append ls r

theorem statusOfChars_statusChars (st : Ralph.EventStatus) :
    statusOfChars (statusChars st) = some st := by
  cases st <;> decide

theorem parseNat_cons_comma (n : Nat) (x : Str) :
    parseNat (natChars n ++ ',' :: x) = some (n, ',' :: x) :=
  parseNat_natChars n (',' :: x) (by
    intro c hc
    simp only [List.head?_cons, Option.some_inj] at hc
    subst hc
    decide)

theorem step_ts (x : Str) :
    expectLit ['\x7b', '"', 't', 'i', 'm', 'e', 's', 't', 'a', 'm', 'p', '"', ':', '"']
      ('\x7b' :: '"' :: 't' :: 'i' :: 'm' :: 'e' :: 's' :: 't' :: 'a' :: 'm' ::
        'p' :: '"' :: ':' :: '"' :: x) = some x :=
  expectLit_append _ x

theorem step_iter (x : Str) :
    expectLit [',', '"', 'i', 't', 'e', 'r', 'a', 't', 'i', 'o', 'n', '"', ':']
      (',' :: '"' :: 'i' :: 't' :: 'e' :: 'r' :: 'a' :: 't' :: 'i' :: 'o' ::
        'n' :: '"' :: ':' :: x) = some x :=
  expectLit_append _ x

theorem step_req (x : Str) :
    expectLit [',', '"', 'r', 'e', 'q', 'u', 'i', 'r', 'e', 'm', 'e', 'n', 't', '"', ':', '"']
      (',' :: '"' :: 'r' :: 'e' :: 'q' :: 'u' :: 'i' :: 'r' :: 'e' :: 'm' ::
        'e' :: 'n' :: 't' :: '"' :: ':' :: '"' :: x) = some x :=
  expectLit_append _ x

theorem step_status (x : Str) :
    expectLit [',', '"', 's', 't', 'a', 't', 'u', 's', '"', ':', '"']
      (',' :: '"' :: 's' :: 't' :: 'a' :: 't' :: 'u' :: 's' :: '"' :: ':' ::
        '"' :: x) = some x :=
  expectLit_append _ x

theorem step_brace : expectLit ['\x7d'] ['\x7d'] = some [] := rfl

theorem parseOptVp_brace : parseOptVp ['\x7d'] = some (none, ['\x7d']) := rfl

theorem parseOptVp_msg (x : Str) :
    parseOptVp (',' :: '"' :: 'm' :: x) = some (none, ',' :: '"' :: 'm' :: x) := rfl

theorem parseOptVp_true (x : Str) :
    parseOptVp (',' :: '"' :: 'v' :: 'a' :: 'l' :: 'i' :: 'd' :: 'a' :: 't' ::
      'i' :: 'o' :: 'n' :: 'P' :: 'a' :: 's' :: 's' :: 'e' :: 'd' :: '"' ::
      ':' :: 't' :: 'r' :: 'u' :: 'e' :: x) = some (some true, x) := rfl

theorem parseOptVp_false (x : Str) :
    parseOptVp (',' :: '"' :: 'v' :: 'a' :: 'l' :: 'i' :: 'd' :: 'a' :: 't' ::
      'i' :: 'o' :: 'n' :: 'P' :: 'a' :: 's' :: 's' :: 'e' :: 'd' :: '"' ::
      ':' :: 'f' :: 'a' :: 'l' :: 's' :: 'e' :: x) = some (some false, x) := rfl

theorem parseOptMsg_brace : parseOptMsg ['\x7d'] = some (none, ['\x7d']) := rfl

theorem parseOptMsg_some (m x : Str) :
    parseOptMsg (',' :: '"' :: 'm' :: 'e' :: 's' :: 's' :: 'a' :: 'g' :: 'e' ::
      '"' :: ':' :: '"' :: (escapeStr m ++ '"' :: x)) = some (some m, x) := by
  have h : parseOptMsg (',' :: '"' :: 'm' :: 'e' :: 's' :: 's' :: 'a' :: 'g' ::
      'e' :: '"' :: ':' :: '"' :: (escapeStr m ++ '"' :: x)) =
      (parseJsonString (escapeStr m ++ '"' :: x)).map (fun p => (some p.1, p.2)) := rfl
  rw [h, parse_escape]
  rfl

theorem decode_encode (e : Ralph.LedgerEvent) :
    decodeEvent (encodeEvent e) = some e := by
  rcases e with ⟨ts, it, req, st, vp, msg⟩
  rcases vp with _ | b
  · rcases msg with _ | m
    ·
      simp only [encodeEvent, List.append_assoc, List.append_nil,
        List.nil_append, List.cons_append, List.singleton_append,
        Bool.false_eq_true, if_false, eq_self_iff_true, if_true]
      simp only [decodeEvent]
      rw [Option.bind_eq_bind]
      rw [step_ts, Option.some_bind]
      rw [Option.bind_eq_bind]
      rw [parse_escape, Option.some_bind]
      rw [step_iter, Option.some_bind]
      rw [Option.bind_eq_bind]
      rw [parseNat_cons_comma, Option.some_bind]
      rw [step_req, Option.some_bind]
      rw [parse_escape, Option.some_bind]
      rw [step_status, Option.some_bind]
      rw [parse_escape, Option.some_bind]
      rw [Option.bind_eq_bind]
      rw [statusOfChars_statusChars, Option.some_bind]
      rw [Option.bind_eq_bind]
      rw [parseOptVp_brace, Option.some_bind]
      rw [Option.bind_eq_bind]
      rw [parseOptMsg_brace, Option.some_bind]
      rw [step_brace]
      rw [Option.some_bind]
      rfl
    ·
      simp only [encodeEvent, List.append_assoc, List.append_nil,
        List.nil_append, List.cons_append, List.singleton_append,
        Bool.false_eq_true, if_false, eq_self_iff_true, if_true]
      simp only [decodeEvent]
      rw [Option.bind_eq_bind]
      rw [step_ts, Option.some_bind]
      rw [Option.bind_eq_bind]
      rw [parse_escape, Option.some_bind]
      rw [step_iter, Option.some_bind]
      rw [Option.bind_eq_bind]
      rw [parseNat_cons_comma, Option.some_bind]
      rw [step_req, Option.some_bind]
      rw [parse_escape, Option.some_bind]
      rw [step_status, Option.some_bind]
      rw [parse_escape, Option.some_bind]
      rw [Option.bind_eq_bind]
      rw [statusOfChars_statusChars, Option.some_bind]
      rw [Option.bind_eq_bind]
      rw [parseOptVp_msg, Option.some_bind]
      rw [Option.bind_eq_bind]
      rw [parseOptMsg_some, Option.some_bind]
      rw [step_brace]
      rw [Option.some_bind]
      rfl
  · rcases b with _ | _ <;> rcases msg with _ | m
    ·
      simp only [encodeEvent, List.append_assoc, List.append_nil,
        List.nil_append, List.cons_append, List.singleton_append,
        Bool.false_eq_true, if_false, eq_self_iff_true, if_true]
      simp only [decodeEvent]
      rw [Option.bind_eq_bind]
      rw [step_ts, Option.some_bind]
      rw [Option.bind_eq_bind]
      rw [parse_escape, Option.some_bind]
      rw [step_iter, Option.some_bind]
      rw [Option.bind_eq_bind]
      rw [parseNat_cons_comma, Option.some_bind]
      rw [step_req, Option.some_bind]
      rw [parse_escape, Option.some_bind]
      rw [step_status, Option.some_bind]
      rw [parse_escape, Option.some_bind]
      rw [Option.bind_eq_bind]
      rw [statusOfChars_statusChars, Option.some_bind]
      rw [Option.bind_eq_bind]
      rw [parseOptVp_false, Option.some_bind]
      rw [Option.bind_eq_bind]
      rw [parseOptMsg_brace, Option.some_bind]
      rw [step_brace]
      rw [Option.some_bind]
      rfl
    ·
      simp only [encodeEvent, List.append_assoc, List.append_nil,
        List.nil_append, List.cons_append, List.singleton_append,
        Bool.false_eq_true, if_false, eq_self_iff_true, if_true]
      simp only [decodeEvent]
      rw [Option.bind_eq_bind]
      rw [step_ts, Option.some_bind]
      rw [Option.bind_eq_bind]
      rw [parse_escape, Option.some_bind]
      rw [step_iter, Option.some_bind]
      rw [Option.bind_eq_bind]
      rw [parseNat_cons_comma, Option.some_bind]
      rw [step_req, Option.some_bind]
      rw [parse_escape, Option.some_bind]
      rw [step_status, Option.some_bind]
      rw [parse_escape, Option.some_bind]
      rw [Option.bind_eq_bind]
      rw [statusOfChars_statusChars, Option.some_bind]
      rw [Option.bind_eq_bind]
      rw [parseOptVp_false, Option.some_bind]
      rw [Option.bind_eq_bind]
      rw [parseOptMsg_some, Option.some_bind]
      rw [step_brace]
      rw [Option.some_bind]
      rfl
    ·
      simp only [encodeEvent, List.append_assoc, List.append_nil,
        List.nil_append, List.cons_append, List.singleton_append,
        Bool.false_eq_true, if_false, eq_self_iff_true, if_true]
      simp only [decodeEvent]
      rw [Option.bind_eq_bind]
      rw [step_ts, Option.some_bind]
      rw [Option.bind_eq_bind]
      rw [parse_escape, Option.some_bind]
      rw [step_iter, Option.some_bind]
      rw [Option.bind_eq_bind]
      rw [parseNat_cons_comma, Option.some_bind]
      rw [step_req, Option.some_bind]
      rw [parse_escape, Option.some_bind]
      rw [step_status, Option.some_bind]
      rw [parse_escape, Option.some_bind]
      rw [Option.bind_eq_bind]
      rw [statusOfChars_statusChars, Option.some_bind]
      rw [Option.bind_eq_bind]
      rw [parseOptVp_true, Option.some_bind]
      rw [Option.bind_eq_bind]
      rw [parseOptMsg_brace, Option.some_bind]
      rw [step_brace]
      rw [Option.some_bind]
      rfl
    ·
      simp only [encodeEvent, List.append_assoc, List.append_nil,
        List.nil_append, List.cons_append, List.singleton_append,
        Bool.false_eq_true, if_false, eq_self_iff_true, if_true]
      simp only [decodeEvent]
      rw [Option.bind_eq_bind]
      rw [step_ts, Option.some_bind]
      rw [Option.bind_eq_bind]
      rw [parse_escape, Option.some_bind]
      rw [step_iter, Option.some_bind]
      rw [Option.bind_eq_bind]
      rw [parseNat_cons_comma, Option.some_bind]
      rw [step_req, Option.some_bind]
      rw [parse_escape, Option.some_bind]
      rw [step_status, Option.some_bind]
      rw [parse_escape, Option.some_bind]
      rw [Option.bind_eq_bind]
      rw [statusOfChars_statusChars, Option.some_bind]
      rw [Option.bind_eq_bind]
      rw [parseOptVp_true, Option.some_bind]
      rw [Option.bind_eq_bind]
      rw [parseOptMsg_some, Option.some_bind]
      rw [step_brace]
      rw [Option.some_bind]
      rfl

end SerializationLemmas

section StorageLemmas

open Ralph Ralph.Ledger

theorem hexDigitChar_ne_nl (n : Nat) : hexDigitChar n ≠ '\n' := by
  unfold hexDigitChar
  split <;> decide

theorem escapeChar_ne_nl (c : Char) : ∀ x ∈ escapeChar c, x ≠ '\n' := by
  intro x hx
  unfold escapeChar at hx
  split_ifs at hx with h1 h2 h3 h4 h5 h6 h7 h8 <;>
    simp only [List.mem_cons, List.not_mem_nil, or_false] at hx <;>
    first
      | (rcases hx with rfl | rfl <;> decide)
      | (rcases hx with rfl | rfl | rfl | rfl | rfl | rfl <;>
          first
            | decide
            | exact hexDigitChar_ne_nl _)
      | (subst hx
         intro hc
         subst hc
         exact h8 (by decide))

theorem escapeStr_ne_nl : ∀ (s : Str), '\n' ∉ escapeStr s
  | [] => by simp [escapeStr_nil]
  | c :: s => by
      rw [escapeStr_cons]
      intro hmem
      rcases List.mem_append.mp hmem with h | h
      · exact escapeChar_ne_nl c '\n' h rfl
      · exact escapeStr_ne_nl s h

theorem natChars_ne_nl (n : Nat) : '\n' ∉ natChars n := by
  intro hmem
  have := natChars_all_digits n '\n' hmem
  simp [isDigitC] at this

theorem encodeEvent_ne_nl (e : Ralph.LedgerEvent) : '\n' ∉ encodeEvent e := by
  rcases e with ⟨ts, it, req, st, vp, msg⟩
  rcases vp with _ | b
  · rcases msg with _ | m <;>
      simp [encodeEvent, List.mem_append, escapeStr_ne_nl, natChars_ne_nl]
  · rcases b with _ | _ <;> rcases msg with _ | m <;>
      simp [encodeEvent, List.mem_append, escapeStr_ne_nl, natChars_ne_nl]

theorem encodeEvent_head (e : Ralph.LedgerEvent) :
    ∃ t, encodeEvent e = '\x7b' :: t :=
  ⟨_, rfl⟩

theorem encodeEvent_concat (e : Ralph.LedgerEvent) :
    ∃ t, encodeEvent e = t ++ ['\x7d'] :=
  ⟨_, rfl⟩

theorem encodeEvent_not_blank (e : Ralph.LedgerEvent) :
    (encodeEvent e).all Char.isWhitespace = false := by
  obtain ⟨t, ht⟩ := encodeEvent_head e
  rw [ht]
  simp [List.all_cons]

theorem stripCr_encodeEvent (e : Ralph.LedgerEvent) :
    stripCr (encodeEvent e) = encodeEvent e := by
  obtain ⟨t, ht⟩ := encodeEvent_concat e
  rw [stripCr, ht, List.getLast?_concat]
  simp

theorem encodeFile_nil : encodeFile [] = [] := rfl

theorem encodeFile_cons (e : Ralph.LedgerEvent) (es : EventList) :
    encodeFile (e :: es) = (encodeEvent e ++ ['\n']) ++ encodeFile es := rfl

theorem encodeFile_append (a b : EventList) :
    encodeFile (a ++ b) = encodeFile a ++ encodeFile b := by
  simp [encodeFile, List.flatten_append]

theorem splitNl_cons_nl (rest : Str) : splitNl ('\n' :: rest) = [] :: splitNl rest := by
  rw [splitNl]
  simp

theorem splitNl_ne_nil : ∀ s : Str, splitNl s ≠ []
  | [] => by simp [splitNl]
  | c :: rest => by
      rw [splitNl]
      by_cases h : c = '\n'
      · simp [h]
      · simp only [if_neg h]
        rcases hs : splitNl rest with _ | ⟨l, ls⟩ <;> simp

theorem splitNl_append : ∀ (l rest : Str), '\n' ∉ l →
    splitNl (l ++ '\n' :: rest) = l :: splitNl rest
  | [], rest, _ => by
      rw [List.nil_append, splitNl_cons_nl]
  | c :: l, rest, h => by
      have hc : c ≠ '\n' := fun hc => h (hc ▸ List.mem_cons_self c l)
      have hl : '\n' ∉ l := fun hm => h (List.mem_cons_of_mem c hm)
      rw [List.cons_append, splitNl]
      simp only [if_neg hc]
      rw [splitNl_append l rest hl]

theorem encodeFile_last : ∀ es : EventList,
    es = [] ∨ (encodeFile es).getLast? = some '\n'
  | [] => Or.inl rfl
  | e :: es => by
      right
      rw [encodeFile_cons]
      rcases encodeFile_last es with h | h
      · subst h
        rw [encodeFile_nil, List.append_nil, List.getLast?_concat]
      · have hne : encodeFile es ≠ [] := by
          intro hnil
          rw [hnil] at h
          cases h
        rw [List.getLast?_append_of_ne_nil _ hne]
        exact h

theorem splitNl_encodeFile : ∀ es : EventList,
    splitNl (encodeFile es) = es.map encodeEvent ++ [[]]
  | [] => rfl
  | e :: es => by
      rw [encodeFile_cons, List.append_assoc, List.singleton_append,
        splitNl_append (encodeEvent e) (encodeFile es) (encodeEvent_ne_nl e),
        splitNl_encodeFile es]
      simp

theorem readLines_of_nl (F : Str) (hne : F ≠ [])
    (hlast : F.getLast? = some '\n') :
    readLines F = ((splitNl F).dropLast).map stripCr := by
  unfold readLines
  rw [if_neg hne, if_pos hlast]

theorem map_stripCr_encode : ∀ es : EventList,
    (es.map encodeEvent).map stripCr = es.map encodeEvent
  | [] => rfl
  | e :: es => by
      rw [List.map_cons, List.map_cons, stripCr_encodeEvent,
        map_stripCr_encode es]

theorem readLines_encodeFile (es : EventList) :
    readLines (encodeFile es) = es.map encodeEvent := by
  rcases hes : es with _ | ⟨e, es'⟩
  · rfl
  · have hne : encodeFile (e :: es') ≠ [] := by
      rw [encodeFile_cons]
      simp
    have hlast : (encodeFile (e :: es')).getLast? = some '\n' := by
      rcases encodeFile_last (e :: es') with h | h
      · cases h
      · exact h
    rw [readLines_of_nl _ hne hlast, splitNl_encodeFile,
      List.dropLast_concat, map_stripCr_encode]

theorem parseLines_encodes : ∀ es : EventList,
    parseLines (es.map encodeEvent) = .ok es
  | [] => rfl
  | e :: es => by
      rw [List.map_cons, parseLines]
      simp only [encodeEvent_not_blank e, Bool.false_eq_true, if_false,
        decode_encode e, parseLines_encodes es]
      rfl

theorem appendAll_spec : ∀ (es : EventList) (l : Ralph.Ledger),
    l.hasPath = true →
    (l.appendAll es).hasPath = true ∧
    (l.appendAll es).events = l.events ++ es ∧
    (l.appendAll es).file = l.file ++ encodeFile es
  | [], l, h =>
      ⟨h, by rw [Ledger.appendAll, List.foldl_nil, List.append_nil],
        by rw [Ledger.appendAll, List.foldl_nil, encodeFile_nil, List.append_nil]⟩
  | e :: es, l, h => by
      have hfold : l.appendAll (e :: es) = ((l.append true e).2).appendAll es := rfl
      have hstep : (l.append true e).2 =
          { hasPath := l.hasPath, file := l.file ++ (encodeEvent e ++ ['\n']),
            events := l.events ++ [e] } := by
        rw [Ledger.append, if_pos h]
        simp
      obtain ⟨h1, h2, h3⟩ := appendAll_spec es ((l.append true e).2)
        (by rw [hstep]; exact h)
      refine ⟨h1, ?_, ?_⟩
      · rw [hfold, h2, hstep]
        simp
      · rw [hfold, h3, hstep, encodeFile_cons]
        simp

/-- C3: for every ledger with a storage path whose file is the encoding of its
events (as `create` and `append` produce), appending any N events and then
reloading the ledger from its file with `Ledger::from_file` yields exactly the
prior events followed by the N appended events, in order. -/
theorem ledger_roundtrip (l : Ralph.Ledger) (hpath : l.hasPath = true)
    (hwf : l.file = encodeFile l.events) (es : List Ralph.LedgerEvent) :
    from_file ((l.appendAll es).file) =
      .ok { hasPath := true, file := (l.appendAll es).file,
            events := l.events ++ es } := by
  obtain ⟨hp, hev, hfile⟩ := appendAll_spec es l hpath
  rw [hfile, hwf, ← encodeFile_append]
  unfold from_file
  rw [readLines_encodeFile, parseLines_encodes]
  rfl

/-- C3 witness: a freshly created ledger, two concrete appended events (one
carrying a validation flag and an escaped message), reloaded intact. -/
theorem ledger_roundtrip_witness :
    from_file ((Ralph.Ledger.create.appendAll [wEvent1, wEvent2]).file) =
      .ok { hasPath := true,
            file := (Ralph.Ledger.create.appendAll [wEvent1, wEvent2]).file,
            events := [wEvent1, wEvent2] } :=
  ledger_roundtrip Ralph.Ledger.create rfl rfl [wEvent1, wEvent2]

/-- C9: `append` fails exactly when the ledger has a path and the durable
write fails; a failed append leaves the in-memory event sequence unchanged
(the push happens only after the durable write); a successful append extends
the in-memory sequence by the event and the file by exactly the one encoded
line — the old content stays an unmodified prefix and the added line contains
no interior newline. -/
theorem append_spec (l : Ralph.Ledger) (e : Ralph.LedgerEvent) :
    (∀ writeOk, ((l.append writeOk e).1 = .error () ↔
        l.hasPath = true ∧ writeOk = false)) ∧
    (∀ writeOk, (l.append writeOk e).1 = .error () →
        (l.append writeOk e).2.events = l.events) ∧
    ((l.append true e).2.events = l.events ++ [e]) ∧
    (l.hasPath = true →
      (l.append true e).2.file = l.file ++ (encodeEvent e ++ ['\n']) ∧
      '\n' ∉ encodeEvent e) := by
  refine ⟨?_, ?_, ?_, ?_⟩
  · intro writeOk
    cases hp : l.hasPath <;> cases writeOk <;> simp [Ralph.Ledger.append, hp]
  · intro writeOk herr
    cases hp : l.hasPath <;> cases writeOk <;>
      simp [Ralph.Ledger.append, hp] at herr ⊢
  · cases hp : l.hasPath <;> simp [Ralph.Ledger.append, hp]
  · intro hp
    exact ⟨by simp [Ralph.Ledger.append, hp, List.append_assoc],
      encodeEvent_ne_nl e⟩

/-- C9 witness: on a created ledger, a failed write reports an error and keeps
the event list unchanged; a successful write appends the event. -/
theorem append_spec_witness :
    (Ralph.Ledger.create.append false wEvent1).1 = .error () ∧
    (Ralph.Ledger.create.append false wEvent1).2.events =
      Ralph.Ledger.create.events ∧
    (Ralph.Ledger.create.append true wEvent1).2.events =
      Ralph.Ledger.create.events ++ [wEvent1] := by
  have h := append_spec Ralph.Ledger.create wEvent1
  have herr : (Ralph.Ledger.create.append false wEvent1).1 = .error () :=
    (h.1 false).2 ⟨rfl, rfl⟩
  exact ⟨herr, h.2.1 false herr, h.2.2.1⟩

end StorageLemmas

section CliTheorems

open Ralph Ralph.Ledger

theorem select_next_decomp : ∀ (reqs : List Requirement) (r : Requirement),
    select_next reqs = some r →
    (r.status = RequirementStatus.todo ∨ r.status = RequirementStatus.inProgress) ∧
    ∃ pre post, reqs = pre ++ r :: post ∧
      ∀ q ∈ pre, q.status ≠ RequirementStatus.todo ∧
        q.status ≠ RequirementStatus.inProgress
  | [], r, h => by cases h
  | x :: reqs, r, h => by
      rw [select_next, List.find?_cons] at h
      rcases hx : (x.status == RequirementStatus.todo ||
          x.status == RequirementStatus.inProgress) with _ | _
      · rw [hx] at h
        obtain ⟨hst, pre, post, hsplit, hpre⟩ := select_next_decomp reqs r h
        refine ⟨hst, x :: pre, post, by rw [hsplit]; rfl, ?_⟩
        intro q hq
        rcases List.mem_cons.mp hq with rfl | hq
        · constructor <;> intro hc <;> rw [hc] at hx <;> simp at hx
        · exact hpre q hq
      · rw [hx] at h
        cases h
        refine ⟨?_, [], reqs, rfl, by intro q hq; cases hq⟩
        rcases hs : x.status <;> rw [hs] at hx <;> simp_all

/-- C6: selection returns the first requirement in list order whose status is
Todo or InProgress (everything before it is Done or Blocked, and the selected
one is never Done or Blocked); with no eligible requirement selection returns
none and the controller terminates immediately with AllComplete; in
particular [R1: Todo, R2: Done] selects R1 and [R1: Done, R2: Done] selects
nothing. -/
theorem select_spec :
    (∀ (reqs : List Requirement) (r : Requirement), select_next reqs = some r →
      (r.status = RequirementStatus.todo ∨ r.status = RequirementStatus.inProgress) ∧
      r.status ≠ RequirementStatus.done ∧ r.status ≠ RequirementStatus.blocked ∧
      ∃ pre post, reqs = pre ++ r :: post ∧
        ∀ q ∈ pre, q.status ≠ RequirementStatus.todo ∧
          q.status ≠ RequirementStatus.inProgress) ∧
    (∀ reqs : List Requirement,
      (∀ q ∈ reqs, q.status = RequirementStatus.done ∨
        q.status = RequirementStatus.blocked) →
      select_next reqs = none) ∧
    (∀ (caps : Caps) (vc : Option ValidationConfig) (fuel : Nat) (prd : Prd)
        (ledger : EventList), select_next prd.requirements = none →
      run caps false vc (fuel + 1) prd ledger =
        (prd, ledger, TermReason.allComplete)) ∧
    select_next [wReqTodo1, wReqDone2] = some wReqTodo1 ∧
    select_next [wReqDone1, wReqDone2] = none := by
  refine ⟨?_, ?_, ?_, by decide, by decide⟩
  · intro reqs r h
    obtain ⟨hst, hrest⟩ := select_next_decomp reqs r h
    refine ⟨hst, ?_, ?_, hrest⟩ <;> rcases hst with hst | hst <;>
      rw [hst] <;> intro hc <;> cases hc
  · intro reqs h
    rw [select_next, List.find?_eq_none]
    intro q hq
    rcases h q hq with hs | hs <;> rw [hs] <;> decide
  · intro caps vc fuel prd ledger hnone
    rw [Ralph.run, runLoop]
    simp [run_single_iteration, hnone]

/-- C6 witness: the decomposition at the concrete list [R1: Todo, R2: Done],
and the empty-selection controller outcome at [R1: Done, R2: Done]. -/
theorem select_spec_witness :
    ((wReqTodo1.status = RequirementStatus.todo ∨
        wReqTodo1.status = RequirementStatus.inProgress) ∧
      wReqTodo1.status ≠ RequirementStatus.done ∧
      wReqTodo1.status ≠ RequirementStatus.blocked ∧
      ∃ pre post, [wReqTodo1, wReqDone2] = pre ++ wReqTodo1 :: post ∧
        ∀ q ∈ pre, q.status ≠ RequirementStatus.todo ∧
          q.status ≠ RequirementStatus.inProgress) ∧
    run wCaps false (some wVc) 1 { wPrd with requirements := [wReqDone1, wReqDone2] } [] =
      ({ wPrd with requirements := [wReqDone1, wReqDone2] }, [],
        TermReason.allComplete) :=
  ⟨select_spec.1 [wReqTodo1, wReqDone2] wReqTodo1 (by decide),
    select_spec.2.2.1 wCaps (some wVc) 0
      { wPrd with requirements := [wReqDone1, wReqDone2] } [] (by decide)⟩

/-- C2: a non-dry-run attempt on a selected requirement uses iteration number
`latest_iteration + 1`; the full-sweep flag it passes to the prompt builder
and validation equals `iteration % 5 == 0`, which holds iff the iteration is
divisible by 5; the ledger gains the Started event (carrying that iteration
and the requirement id) followed by one outcome event; and in the action
trace the Started append comes strictly before the copilot invocation. -/
theorem attempt_spec (caps : Caps) (vc : Option ValidationConfig) (prd : Prd)
    (ledger : EventList) (req : Requirement)
    (hsel : select_next prd.requirements = some req) :
    (∃ outcome, (run_single_iteration caps false prd ledger vc).2.1 =
      (ledger ++ [LedgerEvent.new [] (latest_iteration ledger + 1) req.id
        EventStatus.started]) ++ [outcome]) ∧
    (∃ acts, (run_single_iteration caps false prd ledger vc).2.2.2 =
      Action.savedPrd (prd.update_requirement_status req.id
        RequirementStatus.inProgress) ::
      Action.appended (LedgerEvent.new [] (latest_iteration ledger + 1) req.id
        EventStatus.started) ::
      Action.invokedCopilot (generate_prompt
        (prd.update_requirement_status req.id RequirementStatus.inProgress)
        req
        (ledger ++ [LedgerEvent.new [] (latest_iteration ledger + 1) req.id
          EventStatus.started])
        (latest_iteration ledger + 1)
        ((latest_iteration ledger + 1) % 5 == 0)) :: acts) ∧
    (((latest_iteration ledger + 1) % 5 == 0) = true ↔
      (latest_iteration ledger + 1) % 5 = 0) := by
  rw [run_single_iteration, hsel]
  refine ⟨⟨_, rfl⟩, ⟨_, rfl⟩, beq_iff_eq⟩

/-- C2 witness: the concrete first attempt on the fixture PRD appends the
Started event for R1 at iteration 1 and then one outcome event. -/
theorem attempt_spec_witness :
    ∃ outcome, (run_single_iteration wCaps false wPrd [] (some wVc)).2.1 =
      ([] ++ [Ralph.LedgerEvent.new [] 1 "R1".data Ralph.EventStatus.started])
        ++ [outcome] :=
  (attempt_spec wCaps (some wVc) wPrd [] wReqTodo1 (by decide)).1

/-- C7: starting from an empty ledger with iteration cap 3, an always
succeeding assistant, and a profile whose lint stage always fails, the run
appends exactly three Started+Failed pairs at iterations 1, 2, 3, leaves the
requirement InProgress, and stops with MaxIterationsReached. -/
theorem run_max_iterations_scenario :
    (run wCaps false (some wVc) 3 wPrd []).2.2 =
      TermReason.maxIterationsReached ∧
    ((run wCaps false (some wVc) 3 wPrd []).1.requirements.map
        Requirement.status) = [RequirementStatus.inProgress] ∧
    ((run wCaps false (some wVc) 3 wPrd []).2.1.map
        (fun e => (e.iteration, e.requirement, e.status))) =
      [(1, "R1".data, Ralph.EventStatus.started),
       (1, "R1".data, Ralph.EventStatus.failed),
       (2, "R1".data, Ralph.EventStatus.started),
       (2, "R1".data, Ralph.EventStatus.failed),
       (3, "R1".data, Ralph.EventStatus.started),
       (3, "R1".data, Ralph.EventStatus.failed)] := by
  refine ⟨?_, ?_, ?_⟩ <;> decide

end CliTheorems

section ValidationTheorems

open Ralph Ralph.ValidationProfile

theorem run_stage_go_stage (exec : ShellExec) (stage : ValidationStage) :
    ∀ cmds, (run_stage_go exec stage cmds).stage = stage
  | [] => rfl
  | cmd :: rest => by
      simp only [run_stage_go]
      cases hx : exec cmd with
      | ok o =>
          by_cases h : o.success <;>
            simp [h, run_stage_go_stage exec stage rest]
      | error e => rfl

theorem run_stage_stage (p : ValidationProfile) (exec : ShellExec)
    (stage : ValidationStage) : (p.run_stage exec stage).stage = stage :=
  run_stage_go_stage exec stage _

theorem run_stage_go_success (exec : ShellExec) (stage : ValidationStage) :
    ∀ cmds, (run_stage_go exec stage cmds).success = cmds.all (cmdOk exec)
  | [] => rfl
  | cmd :: rest => by
      simp only [run_stage_go, List.all_cons]
      cases hx : exec cmd with
      | ok o =>
          by_cases h : o.success
          · simp [h, cmdOk, hx, run_stage_go_success exec stage rest]
          · simp [h, cmdOk, hx]
      | error e => simp [cmdOk, hx]

theorem run_stage_go_none (exec : ShellExec) (stage : ValidationStage) :
    ∀ cmds, cmds.find? (fun c => ! cmdOk exec c) = none →
      run_stage_go exec stage cmds = ⟨stage, true, [], some 0⟩
  | [], _ => rfl
  | cmd :: rest, h => by
      rw [List.find?_cons] at h
      rcases hcond : (! cmdOk exec cmd) with _ | _
      · rw [hcond] at h
        have hok : cmdOk exec cmd = true := by
          cases hc : cmdOk exec cmd
          · rw [hc] at hcond; cases hcond
          · rfl
        simp only [run_stage_go]
        cases hx : exec cmd with
        | ok o =>
            have : o.success = true := by simpa [cmdOk, hx] using hok
            simp [this]
            exact run_stage_go_none exec stage rest (by simpa using h)
        | error e => simp [cmdOk, hx] at hok
      · rw [hcond] at h; cases h

theorem run_stage_go_found (exec : ShellExec) (stage : ValidationStage) :
    ∀ cmds c, cmds.find? (fun c => ! cmdOk exec c) = some c →
      (∀ o, exec c = .ok o →
          run_stage_go exec stage cmds =
            ⟨stage, false, o.stdout ++ o.stderr, o.code⟩) ∧
      (∀ e, exec c = .error e →
          run_stage_go exec stage cmds = ⟨stage, false, e, none⟩)
  | [], c, h => by cases h
  | cmd :: rest, c, h => by
      rw [List.find?_cons] at h
      rcases hcond : (! cmdOk exec cmd) with _ | _
      · rw [hcond] at h
        have hok : cmdOk exec cmd = true := by
          cases hc : cmdOk exec cmd
          · rw [hc] at hcond; cases hcond
          · rfl
        have hrest := run_stage_go_found exec stage rest c (by simpa using h)
        constructor
        · intro o ho
          have := (hrest.1 o ho)
          simp only [run_stage_go]
          cases hx : exec cmd with
          | ok o' =>
              have hs : o'.success = true := by simpa [cmdOk, hx] using hok
              simp [hs, this]
          | error e => simp [cmdOk, hx] at hok
        · intro e he
          have := (hrest.2 e he)
          simp only [run_stage_go]
          cases hx : exec cmd with
          | ok o' =>
              have hs : o'.success = true := by simpa [cmdOk, hx] using hok
              simp [hs, this]
          | error e' => simp [cmdOk, hx] at hok
      · rw [hcond] at h
        have hc : c = cmd := by
          cases h; rfl
        subst hc
        have hbad : cmdOk exec c = false := by
          cases hcb : cmdOk exec c
          · rfl
          · rw [hcb] at hcond; cases hcond
        constructor
        · intro o ho
          have hs : o.success = false := by simpa [cmdOk, ho] using hbad
          simp [run_stage_go, ho, hs]
        · intro e he
          simp [run_stage_go, he]

/-- C8: a stage succeeds iff every configured command exits 0; when the first
failing command completes, its combined stdout+stderr and exit code become the
stage result; when it fails to launch, the launch error description becomes
the output with no exit code; with no failing command the stage result is
success with empty output and code 0 (so later commands never influence the
result). -/
theorem run_stage_spec (p : ValidationProfile) (exec : ShellExec)
    (stage : ValidationStage) :
    ((p.run_stage exec stage).success = true ↔
      ∀ cmd ∈ p.commands_for_stage stage, cmdOk exec cmd = true) ∧
    ((p.commands_for_stage stage).find? (fun c => ! cmdOk exec c) = none →
      p.run_stage exec stage = ⟨stage, true, [], some 0⟩) ∧
    (∀ cmd, (p.commands_for_stage stage).find? (fun c => ! cmdOk exec c) = some cmd →
      (∀ o, exec cmd = .ok o →
          p.run_stage exec stage = ⟨stage, false, o.stdout ++ o.stderr, o.code⟩) ∧
      (∀ e, exec cmd = .error e →
          p.run_stage exec stage = ⟨stage, false, e, none⟩)) := by
  refine ⟨?_, ?_, ?_⟩
  · rw [Ralph.ValidationProfile.run_stage, run_stage_go_success]
    simp [List.all_eq_true]
  · exact run_stage_go_none exec stage _
  · exact fun cmd h => run_stage_go_found exec stage _ cmd h

/-- C8 witness: under the fixture executor, the lint stage of the fixture
profile fails on its first command "a" with that command's combined output and
exit code 1. -/
theorem run_stage_spec_witness :
    wProfile.run_stage wExec ValidationStage.lint =
      ⟨ValidationStage.lint, false, ['o', 'e'], some 1⟩ :=
  ((run_stage_spec wProfile wExec ValidationStage.lint).2.2 ['a'] (by decide)).1
    ⟨['o'], ['e'], some 1⟩ rfl

theorem run_all_go_stages (p : ValidationProfile) (exec : ShellExec) :
    ∀ stages, ∀ r ∈ run_all_go p exec stages, r.stage ∈ stages
  | [], r, hr => by cases hr
  | s :: rest, r, hr => by
      simp only [run_all_go] at hr
      by_cases h : (p.run_stage exec s).success = true
      · rw [if_pos h, List.mem_cons] at hr
        rcases hr with rfl | hr
        · simp [run_stage_stage]
        · exact List.mem_cons_of_mem _ (run_all_go_stages p exec rest r hr)
      · rw [if_neg h, List.mem_singleton] at hr
        subst hr; simp [run_stage_stage]

theorem run_all_go_front_success (p : ValidationProfile) (exec : ShellExec) :
    ∀ stages, ∀ r ∈ (run_all_go p exec stages).dropLast, r.success = true
  | [], r, hr => by cases hr
  | s :: rest, r, hr => by
      simp only [run_all_go] at hr
      by_cases h : (p.run_stage exec s).success = true
      · rw [if_pos h] at hr
        rcases hrest : run_all_go p exec rest with _ | ⟨r₀, rs⟩
        · rw [hrest] at hr; cases hr
        · rw [hrest, List.dropLast_cons₂, List.mem_cons] at hr
          rcases hr with rfl | hr
          · exact h
          · exact run_all_go_front_success p exec rest r (by rw [hrest]; exact hr)
      · rw [if_neg h] at hr
        cases hr

/-- C4: with `include_tests = false` no test-stage result is produced, every
result other than the last is a success (execution stops at the first failing
stage), and a failing lint stage means no typecheck or test result appears. -/
theorem run_all_spec (p : ValidationProfile) (exec : ShellExec) :
    (∀ r ∈ p.run_all exec false, r.stage ≠ ValidationStage.test) ∧
    (∀ include_tests, ∀ r ∈ (p.run_all exec include_tests).dropLast,
        r.success = true) ∧
    ((p.run_stage exec ValidationStage.lint).success = false →
      ∀ include_tests, ∀ r ∈ p.run_all exec include_tests,
        r.stage ≠ ValidationStage.typecheck ∧ r.stage ≠ ValidationStage.test) := by
  refine ⟨?_, ?_, ?_⟩
  · intro r hr heq
    have hmem := run_all_go_stages p exec ValidationStage.short_circuit r hr
    rw [heq] at hmem
    simp [ValidationStage.short_circuit] at hmem
  · intro include_tests r hr
    exact run_all_go_front_success p exec _ r hr
  · intro hlint include_tests r hr
    have hfs := run_stage_stage p exec ValidationStage.fmt
    have hls := run_stage_stage p exec ValidationStage.lint
    cases include_tests <;>
      by_cases hf : (p.run_stage exec ValidationStage.fmt).success = true <;>
        simp only [Ralph.ValidationProfile.run_all, ValidationStage.all,
          ValidationStage.short_circuit, run_all_go, hf, hlint, if_true,
          if_false, Bool.false_eq_true, if_neg, List.mem_cons,
          List.mem_singleton, List.not_mem_nil, or_false] at hr ⊢ <;>
      rcases hr with rfl | rfl <;>
        simp_all

/-- C4 witness: under the fixture executor (lint fails) the fmt result is a
member of `run_all` without tests and is not a test-stage result. -/
theorem run_all_spec_witness :
    (⟨ValidationStage.fmt, true, [], some 0⟩ : ValidationResult) ∈
        wProfile.run_all wExec false ∧
    (⟨ValidationStage.fmt, true, ([] : Str), some 0⟩ : ValidationResult).stage ≠
        ValidationStage.test :=
  ⟨by decide, (run_all_spec wProfile wExec).1 _ (by decide)⟩

/-- C10: a stage whose configured command list is empty passes vacuously with
exit code 0 and empty output, and a stage key absent from the configuration
(`none` field under the serde defaults) deserializes to an empty command
list. -/
theorem run_stage_empty_commands :
    (∀ (p : ValidationProfile) (exec : ShellExec) (stage : ValidationStage),
        p.commands_for_stage stage = [] →
        p.run_stage exec stage = ⟨stage, true, [], some 0⟩) ∧
    (∀ l t te, (ProfileCommands.ofFields none l t te).fmt = []) ∧
    (∀ f t te, (ProfileCommands.ofFields f none t te).lint = []) ∧
    (∀ f l te, (ProfileCommands.ofFields f l none te).typecheck = []) ∧
    (∀ f l t, (ProfileCommands.ofFields f l t none).test = []) := by
  refine ⟨?_, fun _ _ _ => rfl, fun _ _ _ => rfl, fun _ _ _ => rfl, fun _ _ _ => rfl⟩
  intro p exec stage h
  rw [Ralph.ValidationProfile.run_stage, h]
  rfl

/-- C10 witness: the all-empty fixture profile passes the test stage. -/
theorem run_stage_empty_commands_witness :
    wEmptyProfile.run_stage wExec ValidationStage.test =
      ⟨ValidationStage.test, true, [], some 0⟩ :=
  run_stage_empty_commands.1 wEmptyProfile wExec ValidationStage.test rfl

end ValidationTheorems

section C5Theorems

open Ralph Ralph.Ledger

/-- The long fixture output has 2002 characters. -/
theorem wLongOutput_length : wLongOutput.length = 2002 := by
  rw [wLongOutput, List.length_append, List.length_replicate]
  rfl

/-- `readLines` on a non-empty text without a trailing newline is plain
splitting on newlines. -/
theorem readLines_of_last_ne (F : Str) (hne : F ≠ [])
    (hlast : F.getLast? ≠ some '\n') :
    readLines F = (splitNl F).map stripCr := by
  unfold readLines
  rw [if_neg hne, if_neg hlast]

/-- A run of letters contains no newline. -/
theorem nl_not_mem_replicate (n : Nat) : '\n' ∉ List.replicate n 'a' := by
  intro h
  have := List.eq_of_mem_replicate h
  cases this

/-- The long fixture output is non-empty. -/
theorem wLong_ne_nil : wLongOutput ≠ [] := by
  rw [wLongOutput]
  exact List.append_ne_nil_of_right_ne_nil _ (List.cons_ne_nil _ _)

/-- The long fixture output ends in its last-line character. -/
theorem wLong_last : wLongOutput.getLast? = some 'Z' := by
  rw [wLongOutput, List.getLast?_append_of_ne_nil _ (List.cons_ne_nil _ _)]
  rfl

/-- The long fixture output splits into a 2000-character first line and the
one-character last line. -/
theorem strLines_wLong : strLines wLongOutput = [List.replicate 2000 'a', ['Z']] := by
  rw [strLines, readLines_of_last_ne _ wLong_ne_nil (by rw [wLong_last]; decide)]
  rw [wLongOutput, splitNl_append _ _ (nl_not_mem_replicate 2000)]
  rw [show splitNl ['Z'] = [['Z']] from rfl]
  rw [List.map_cons, List.map_cons, List.map_nil]
  rw [show stripCr ['Z'] = ['Z'] from rfl]
  rw [stripCr, List.getLast?_replicate]
  rfl

/-- C5 counterexample: the fixture failure output is longer than the 2000
character bound and its last line is the single character that the built
prompt never contains: `generate_prompt` keeps only the first 2000
characters of the output (plus a marker), dropping the last line
entirely. -/
theorem wc5_counterexample :
    2000 < wLongOutput.length ∧
    (strLines wLongOutput).getLast? = some ['Z'] ∧
    'Z' ∉ generate_prompt wPrd wReqTodo1 wFailedLedger 2 false := by
  refine ⟨by rw [wLongOutput_length]; omega,
    by rw [strLines_wLong, List.getLast?_cons_cons]; rfl, ?_⟩
  have hfail : Ledger.get_last_validation_failure wFailedLedger wReqTodo1.id =
      some wLongOutput := rfl
  have hlen : MAX_VALIDATION_OUTPUT < wLongOutput.length := by
    rw [wLongOutput_length]
    decide
  have htake : wLongOutput.take MAX_VALIDATION_OUTPUT = List.replicate 2000 'a' := by
    rw [wLongOutput,
      show (MAX_VALIDATION_OUTPUT : Nat) = (List.replicate 2000 'a').length from
        by rw [List.length_replicate]; rfl]
    exact List.take_left _ _
  have hdiff : natChars (wLongOutput.length - MAX_VALIDATION_OUTPUT) = ['2'] := by
    rw [wLongOutput_length]
    rfl
  unfold generate_prompt
  rw [if_pos (by omega : (1:Nat) < 2)]
  simp only [hfail]
  rw [injected_feedback, if_pos hlen, htake, hdiff]
  simp only [List.mem_append, List.mem_replicate, not_or]
  decide

/-- The hard-truncation step of `smart_truncate_validation_output` is bounded
by `max_chars` plus its 33-character marker. -/
theorem finalTrunc_le (R M : Str) (hM : M.length = 33) (max_chars : Nat) :
    (if max_chars < R.length then R.take max_chars ++ M else R).length ≤
      max_chars + 33 := by
  by_cases h : max_chars < R.length
  · rw [if_pos h, List.length_append, List.length_take, hM]
    omega
  · rw [if_neg h]
    omega

/-- Shape of `generate_prompt` when a previous validation failure exists:
the base prompt, a failure header, the inline-truncated output, and a
footer. -/
theorem generate_prompt_failure_eq (prd : Prd) (req : Requirement)
    (events : EventList) (it : Nat) (output : Str) (full : Bool)
    (hit : 1 < it)
    (hf : Ledger.get_last_validation_failure events req.id = some output) :
    generate_prompt prd req events it full =
      ("Implement requirement ".data ++ req.id
        ++ " for feature '".data ++ prd.slug
        ++ "' (iteration ".data ++ natChars it
        ++ ").\n\nTitle: ".data ++ req.title
        ++ "\n\nAcceptance Criteria:\n".data
        ++ joinSep ['\n'] (req.acceptance_criteria.map (fun ac => "- ".data ++ ac))
        ++ "\n\nValidation: fmt -> lint -> typecheck".data
        ++ (if full then " -> test".data else [])
        ++ "\n\nUpdate PRD status only after validation passes.".data)
      ++ "\n\n⚠️  PREVIOUS ITERATION FAILED VALIDATION:\n\n".data
      ++ injected_feedback output
      ++ "\n\n🚨 YOU MUST FIX THESE ERRORS BEFORE FINISHING.\nRead the error output above and fix the root cause.\nDO NOT finish your work until validation passes.".data := by
  unfold generate_prompt
  rw [if_pos hit]
  simp only [hf]

/-- C5 (amended): the failure section injected into the built prompt is the
first `MAX_VALIDATION_OUTPUT = 2000` characters of the output followed by a
marker naming the omitted character count - a prefix of the original output
of length exactly 2000, so the section exceeds the 2000 bound by the marker
and need not contain the last line; separately,
`smart_truncate_validation_output` (used only for ledger event messages)
is bounded by `max_chars + 33`. -/
theorem truncation_spec :
    (∀ (output : Str) (max_chars : Nat),
      (smart_truncate_validation_output output max_chars).length ≤
        max_chars + 33) ∧
    (∀ (prd : Prd) (req : Requirement) (events : EventList) (it : Nat)
        (output : Str) (full : Bool),
      1 < it →
      Ledger.get_last_validation_failure events req.id = some output →
      MAX_VALIDATION_OUTPUT < output.length →
      ∃ pre post,
        generate_prompt prd req events it full =
          pre ++ (output.take MAX_VALIDATION_OUTPUT
            ++ "\n\n... (truncated ".data
            ++ natChars (output.length - MAX_VALIDATION_OUTPUT)
            ++ " chars) ...\n".data) ++ post ∧
        (output.take MAX_VALIDATION_OUTPUT).length = MAX_VALIDATION_OUTPUT ∧
        output.take MAX_VALIDATION_OUTPUT <+: output) := by
  constructor
  · intro output max_chars
    rw [smart_truncate_validation_output]
    by_cases h : output.length ≤ max_chars
    · rw [if_pos h]
      omega
    · rw [if_neg h]
      exact finalTrunc_le _ _ (by rfl) max_chars
  · intro prd req events it output full hit hf hlen
    refine ⟨("Implement requirement ".data ++ req.id
        ++ " for feature '".data ++ prd.slug
        ++ "' (iteration ".data ++ natChars it
        ++ ").\n\nTitle: ".data ++ req.title
        ++ "\n\nAcceptance Criteria:\n".data
        ++ joinSep ['\n'] (req.acceptance_criteria.map (fun ac => "- ".data ++ ac))
        ++ "\n\nValidation: fmt -> lint -> typecheck".data
        ++ (if full then " -> test".data else [])
        ++ "\n\nUpdate PRD status only after validation passes.".data)
        ++ "\n\n⚠️  PREVIOUS ITERATION FAILED VALIDATION:\n\n".data,
      "\n\n🚨 YOU MUST FIX THESE ERRORS BEFORE FINISHING.\nRead the error output above and fix the root cause.\nDO NOT finish your work until validation passes.".data,
      ?_, ?_, List.take_prefix _ _⟩
    · rw [generate_prompt_failure_eq prd req events it output full hit hf,
        injected_feedback, if_pos hlen]
    · rw [List.length_take]
      omega

/-- C5 witness: the amended theorem applied at the single-line fixture
output (truncation bound) and at the concrete failed ledger (prompt
decomposition). -/
theorem truncation_spec_witness :
    (smart_truncate_validation_output wSingleLine 2000).length ≤ 2000 + 33 ∧
    (∃ pre post,
      generate_prompt wPrd wReqTodo1 wFailedLedger 2 false =
        pre ++ (wLongOutput.take MAX_VALIDATION_OUTPUT
          ++ "\n\n... (truncated ".data
          ++ natChars (wLongOutput.length - MAX_VALIDATION_OUTPUT)
          ++ " chars) ...\n".data) ++ post ∧
      (wLongOutput.take MAX_VALIDATION_OUTPUT).length = MAX_VALIDATION_OUTPUT ∧
      wLongOutput.take MAX_VALIDATION_OUTPUT <+: wLongOutput) :=
  ⟨truncation_spec.1 wSingleLine 2000,
   truncation_spec.2 wPrd wReqTodo1 wFailedLedger 2 wLongOutput false
     (by decide) rfl (by rw [wLongOutput_length]; decide)⟩

end C5Theorems
